import Mathlib

/-!
Verification of the image-to-ASCII sampling pipeline of `src/img2ascii.py`.

The pipeline is embedded shallowly: a grayscale image is a row-major list of
luminance samples, Python floats are modelled by `ℚ`, Python `int(...)`
truncation by `pyInt`, and the Lanczos resampling step (delegated by the
source to the Pillow library) is kept abstract as a parameter `R` that is
assumed to satisfy Pillow's documented contract (`ValidResample`, and the
same-size shortcut `ResampleId`).  All other stages — crop-bound arithmetic,
brightness clamping, target-dimension computation, glyph-ramp quantization,
row assembly and the GUI-side scale validation — are translated directly from
the source.
-/

/-- Grayscale raster image: `data` lists the luminance samples row-major,
as produced by `Image.open(path).convert('L')` followed by `getdata()`. -/
structure Img where
  width : Nat
  height : Nat
  data : List Nat
  deriving DecidableEq, Repr

/-- Well-formed decoded image: the sample list has exactly `width * height`
entries and every sample is an 8-bit luminance value. -/
def Img.Valid (img : Img) : Prop :=
  img.data.length = img.width * img.height ∧ ∀ p ∈ img.data, p ≤ 255

/-- Python `int(...)` on a real number: truncation toward zero. -/
def pyInt (q : ℚ) : Int :=
  if q < 0 then ⌈q⌉ else ⌊q⌋

/-- Target dimension computation (src/img2ascii.py lines 445-450):
`new_width = int(image.width * width_scale / 100)` then `max(1, new_width)`. -/
def newDim (dim : Nat) (scale : ℚ) : Nat :=
  (max 1 (pyInt ((dim : ℚ) * scale / 100))).toNat

/-- Pixel-coordinate crop rectangle (left, upper, right, lower). -/
structure CropBox where
  sx : Int
  sy : Int
  ex : Int
  ey : Int
  deriving DecidableEq, Repr

/-- Percentage-to-pixel crop bound conversion and clamping
(src/img2ascii.py lines 413-422). -/
def cropBox (w h : Nat) (csx csy cex cey : ℚ) : CropBox :=
  let sx0 := pyInt ((w : ℚ) * csx / 100)
  let sy0 := pyInt ((h : ℚ) * csy / 100)
  let ex0 := pyInt ((w : ℚ) * cex / 100)
  let ey0 := pyInt ((h : ℚ) * cey / 100)
  let sx := max 0 (min sx0 ((w : Int) - 1))
  let sy := max 0 (min sy0 ((h : Int) - 1))
  let ex := max (sx + 1) (min ex0 (w : Int))
  let ey := max (sy + 1) (min ey0 (h : Int))
  ⟨sx, sy, ex, ey⟩

/-- PIL `image.crop((sx, sy, ex, ey))` (src/img2ascii.py line 425): the
result is the `(ex-sx) × (ey-sy)` rectangle whose pixel `(i, j)` is pixel
`(sx+i, sy+j)` of the source, row-major. -/
def cropImg (img : Img) (b : CropBox) : Img :=
  let w := (b.ex - b.sx).toNat
  let h := (b.ey - b.sy).toNat
  ⟨w, h, (List.range (w * h)).map (fun k =>
    img.data.getD ((b.sy.toNat + k / w) * img.width + (b.sx.toNat + k % w)) 0)⟩

/-- One sample of `np.clip(img_array + brightness, 0, 255).astype('uint8')`
(src/img2ascii.py lines 433-436): add, clamp to [0,255], truncate. -/
def brightPixel (b : ℚ) (p : Nat) : Nat :=
  (⌊max 0 (min ((p : ℚ) + b) 255)⌋).toNat

/-- Brightness stage (src/img2ascii.py lines 431-436); skipped when the
offset is zero, exactly as the source's `if brightness != 0` guard. -/
def applyBrightness (b : ℚ) (img : Img) : Img :=
  if b = 0 then img else ⟨img.width, img.height, img.data.map (brightPixel b)⟩

/-- The `standard` glyph ramp (src/img2ascii.py line 52). -/
def standardRamp : String := " .:-=+*#%@"

/-- The `detailed` glyph ramp (src/img2ascii.py line 53). -/
def detailedRamp : String :=
  " .\x27\x60^\",:;Il!i><~+_-?][\x7d\x7b1)(|\\/tfjrxnuvczXYUJCLQ0OZmwqpdbkhao*#MW&8%B@$"

/-- The named glyph-ramp presets, `self.char_sets`
(src/img2ascii.py lines 51-58). -/
def charSets (name : String) : Option String :=
  if name = "standard" then some standardRamp
  else if name = "detailed" then some detailedRamp
  else if name = "simple" then some " .#"
  else if name = "blocks" then some " ░▒▓█"
  else if name = "dots" then some " ··●●"
  else if name = "custom" then some " .:-=+*#%@"
  else none

/-- `self.char_sets.get(char_set, self.char_sets["standard"])`
(src/img2ascii.py line 463): lookup with fallback to the standard ramp. -/
def resolveCharSet (name : String) : String :=
  (charSets name).getD standardRamp

/-- `int(gray_value * (len(char_set) - 1) / 255)` (src/img2ascii.py
line 475), with the Python subtraction and division done over ℚ. -/
def charIndex (n g : Nat) : Int :=
  pyInt ((g : ℚ) * ((n : ℚ) - 1) / 255)

/-- The quantization index after the optional inversion
`char_index = len(char_set) - 1 - char_index` (src/img2ascii.py line 481). -/
def rampIndex (n : Nat) (invert : Bool) (g : Nat) : Int :=
  if invert then (n : Int) - 1 - charIndex n g else charIndex n g

/-- `char_set[char_index]` (src/img2ascii.py line 483). -/
def rampChar (ramp : List Char) (invert : Bool) (g : Nat) : Char :=
  ramp.getD (rampIndex ramp.length invert g).toNat ' '

/-- `for i in range(0, len(pixels), new_width): row = pixels[i:i + new_width]`
(src/img2ascii.py lines 470-471): slice the flat sample list into rows. -/
def sliceRows {α : Type} (w : Nat) (xs : List α) : List (List α) :=
  (List.range ((xs.length + w - 1) / w)).map (fun k => (xs.drop (k * w)).take w)

/-- The quantization loop (src/img2ascii.py lines 469-484): each row of
samples becomes a row of ramp characters. -/
def asciiRows (w : Nat) (pixels : List Nat) (ramp : List Char) (invert : Bool) :
    List (List Char) :=
  (sliceRows w pixels).map (fun row => row.map (rampChar ramp invert))

/-- Python `"\n".join(ascii_chars)` (src/img2ascii.py line 486). -/
def joinRows : List (List Char) → List Char
  | [] => []
  | [r] => r
  | r :: rs => r ++ '\n' :: joinRows rs

/-- The optional crop stage (src/img2ascii.py lines 402-425). -/
def stageCrop (img : Img) (ce : Bool) (p1 p2 p3 p4 : ℚ) : Img :=
  if ce then cropImg img (cropBox img.width img.height p1 p2 p3 p4) else img

/-- The image handed to the resize step: the decoded image after the
optional crop and the optional brightness adjustment
(src/img2ascii.py lines 398-436). -/
def preImage (img : Img) (b : ℚ) (ce : Bool) (p1 p2 p3 p4 : ℚ) : Img :=
  applyBrightness b (stageCrop img ce p1 p2 p3 p4)

/-- The conversion pipeline of `image_to_ascii` from the decoded grayscale
image on (src/img2ascii.py lines 398-486), with an explicit glyph ramp and
the Pillow resampling step abstracted as `R`:
crop → brightness → resize → quantize → rows. -/
def convertRows (R : Img → Nat → Nat → Img) (img : Img) (ws hs : ℚ)
    (ramp : List Char) (invert : Bool) (b : ℚ) (ce : Bool) (p1 p2 p3 p4 : ℚ) :
    List (List Char) :=
  let img2 := preImage img b ce p1 p2 p3 p4
  let nw := newDim img2.width ws
  let nh := newDim img2.height hs
  let img3 := R img2 nw nh
  asciiRows nw img3.data ramp invert

/-- `image_to_ascii` with a named character set, returned as the list of
rows (the source's `ascii_chars` variable, src/img2ascii.py line 484). -/
def image_to_ascii_rows (R : Img → Nat → Nat → Img) (img : Img) (ws hs : ℚ)
    (name : String) (invert : Bool) (b : ℚ) (ce : Bool) (p1 p2 p3 p4 : ℚ) :
    List (List Char) :=
  convertRows R img ws hs (resolveCharSet name).data invert b ce p1 p2 p3 p4

/-- The string returned by `image_to_ascii` on the success path
(src/img2ascii.py line 486). -/
def image_to_ascii (R : Img → Nat → Nat → Img) (img : Img) (ws hs : ℚ)
    (name : String) (invert : Bool) (b : ℚ) (ce : Bool) (p1 p2 p3 p4 : ℚ) :
    String :=
  String.mk (joinRows (image_to_ascii_rows R img ws hs name invert b ce p1 p2 p3 p4))

/-- Pillow's contract for `Image.resize((w, h), LANCZOS)` on a well-formed
image: the result has the requested dimensions, a sample list of matching
length, and 8-bit samples. -/
def ValidResample (R : Img → Nat → Nat → Img) : Prop :=
  ∀ img w h, Img.Valid img →
    (R img w h).width = w ∧ (R img w h).height = h ∧
    (R img w h).data.length = w * h ∧ ∀ p ∈ (R img w h).data, p ≤ 255

/-- Pillow's documented same-size shortcut: resizing a well-formed image to
its own dimensions returns the image unchanged. -/
def ResampleId (R : Img → Nat → Nat → Img) : Prop :=
  ∀ img w h, Img.Valid img → w = img.width → h = img.height → R img w h = img

/-- A concrete resampler satisfying the Pillow contract (nearest-neighbour
sampling, with the same-size shortcut), used to instantiate theorems. -/
def nearestResample (img : Img) (w h : Nat) : Img :=
  if w = img.width ∧ h = img.height then img
  else ⟨w, h, (List.range (w * h)).map (fun k =>
    img.data.getD ((k / w * img.height / h) * img.width + k % w * img.width / w) 0)⟩

/-- The fallible boundary of `image_to_ascii` (src/img2ascii.py lines
389-392 and 488-489): the existence check, the decode step and the resize
step may fail, and every failure is rendered as a message string — `load` is
the outcome of `Image.open(path).convert('L')` and `resize` the outcome of
`image.resize(...)`, each an `Except` carrying `str(e)` on failure. -/
def image_to_ascii_checked (pathExists : Bool) (load : Except String Img)
    (resize : Img → Nat → Nat → Except String Img) (ws hs : ℚ) (name : String)
    (invert : Bool) (b : ℚ) (ce : Bool) (p1 p2 p3 p4 : ℚ) : String :=
  if pathExists then
    match load with
    | .error e => "Error converting image: " ++ e
    | .ok img =>
      let img2 := preImage img b ce p1 p2 p3 p4
      let nw := newDim img2.width ws
      let nh := newDim img2.height hs
      match resize img2 nw nh with
      | .error e => "Error converting image: " ++ e
      | .ok img3 =>
        String.mk (joinRows (asciiRows nw img3.data (resolveCharSet name).data invert))
  else "Please select a valid image file."

/-- `on_width_entry_change` (src/img2ascii.py lines 351-363): the entry's
text has already been written into the `width_scale` variable by the widget
binding.  Input `none` models non-numeric text: there `DoubleVar.get()` on
line 354 raises `TclError`, which the handler's `except ValueError` (line
361) does not catch, so the exception escapes the handler and no value is
stored at all — modelled as output `none`.  Output `some r` is the value
held by `width_scale` after the handler returns normally. -/
def on_width_entry_change (entry : Option ℚ) : Option ℚ :=
  match entry with
  | some value => some (if 0.001 ≤ value ∧ value ≤ 100 then value else 100)
  | none => none

/-- `on_height_entry_change` (src/img2ascii.py lines 365-377), identical to
the width handler: an uncaught `TclError` (output `none`) on non-numeric
text, otherwise the validated value or the default 100.0. -/
def on_height_entry_change (entry : Option ℚ) : Option ℚ :=
  match entry with
  | some value => some (if 0.001 ≤ value ∧ value ≤ 100 then value else 100)
  | none => none

/-- Python `ascii_text.split('\n')` (src/img2ascii.py line 172), on the
underlying character list. -/
def splitLinesChars : List Char → List (List Char)
  | [] => [[]]
  | c :: cs =>
    if c = '\n' then [] :: splitLinesChars cs
    else
      match splitLinesChars cs with
      | [] => [[c]]
      | r :: rs => (c :: r) :: rs

/-- The canvas geometry of `ascii_to_image` (src/img2ascii.py lines
171-182): `img_width = max_line_length * (font_size // 2)` and
`img_height = len(lines) * (font_size + 2)`. -/
def ascii_to_image_size (asciiText : String) (fontSize : Nat) : Nat × Nat :=
  let lines := splitLinesChars asciiText.data
  let maxLineLength := (lines.map List.length).foldl max 0
  (maxLineLength * (fontSize / 2), lines.length * (fontSize + 2))

/-- A 10×10 solid mid-gray (128) test image. -/
def gray10 : Img := ⟨10, 10, List.replicate 100 128⟩

/-- A 3×3 all-black test image. -/
def blank3 : Img := ⟨3, 3, List.replicate 9 0⟩

/-! ### Basic arithmetic facts about the embedding -/

theorem pyInt_of_nonneg (q : ℚ) (h : 0 ≤ q) : pyInt q = ⌊q⌋ := by
  unfold pyInt
  rw [if_neg (not_lt.mpr h)]

theorem floor_natCast_div_255 (a : Nat) : ⌊((a : ℚ)) / 255⌋ = ((a / 255 : Nat) : Int) := by
  have h0 : (0 : ℚ) ≤ (a : ℚ) / 255 := by positivity
  have h1 : ⌊((a : ℚ)) / 255⌋ = ((⌊((a : ℚ)) / 255⌋.toNat : Nat) : Int) :=
    (Int.toNat_of_nonneg (Int.le_floor.mpr (by exact_mod_cast h0))).symm
  rw [h1, Int.floor_toNat]
  norm_cast

theorem charIndex_eq (n g : Nat) (hn : 1 ≤ n) :
    charIndex n g = ((g * (n - 1) / 255 : Nat) : Int) := by
  unfold charIndex
  have hcast : (g : ℚ) * ((n : ℚ) - 1) = ((g * (n - 1) : Nat) : ℚ) := by
    push_cast [Nat.cast_sub hn]
    ring
  rw [hcast, pyInt_of_nonneg _ (by positivity), floor_natCast_div_255]

theorem charIndex_nonneg (n g : Nat) (hn : 1 ≤ n) : 0 ≤ charIndex n g := by
  rw [charIndex_eq n g hn]
  exact Int.ofNat_nonneg _

theorem charIndex_toNat_le (n g : Nat) (hn : 1 ≤ n) (hg : g ≤ 255) :
    (charIndex n g).toNat ≤ n - 1 := by
  rw [charIndex_eq n g hn, Int.toNat_natCast]
  calc g * (n - 1) / 255 ≤ 255 * (n - 1) / 255 :=
        Nat.div_le_div_right (Nat.mul_le_mul_right _ hg)
    _ = n - 1 := Nat.mul_div_cancel_left _ (by norm_num)

theorem rampIndex_spec (n g : Nat) (invert : Bool) (hn : 1 ≤ n) (hg : g ≤ 255) :
    0 ≤ rampIndex n invert g ∧
      (rampIndex n invert g).toNat =
        (if invert then n - 1 - (charIndex n g).toNat else (charIndex n g).toNat) ∧
      (rampIndex n invert g).toNat < n := by
  have h0 := charIndex_nonneg n g hn
  have h1 := charIndex_toNat_le n g hn hg
  cases invert with
  | false =>
    simp only [rampIndex, Bool.false_eq_true, if_false]
    generalize hc : charIndex n g = c at h0 h1 ⊢
    clear hc
    exact ⟨h0, trivial, by omega⟩
  | true =>
    simp only [rampIndex, if_true]
    generalize hc : charIndex n g = c at h0 h1 ⊢
    clear hc
    refine ⟨by omega, by omega, by omega⟩

theorem rampChar_getD (ramp : List Char) (invert : Bool) (g : Nat) :
    rampChar ramp invert g = ramp.getD (rampIndex ramp.length invert g).toNat ' ' := rfl

theorem rampChar_mem (ramp : List Char) (invert : Bool) (g : Nat)
    (hramp : ramp ≠ []) (hg : g ≤ 255) : rampChar ramp invert g ∈ ramp := by
  have hn : 1 ≤ ramp.length := List.length_pos.mpr hramp
  have hlt := (rampIndex_spec ramp.length g invert hn hg).2.2
  rw [rampChar_getD, List.getD_eq_getElem _ _ hlt]
  exact List.getElem_mem _

theorem rampChar_invert (ramp : List Char) (g : Nat)
    (hramp : ramp ≠ []) (hg : g ≤ 255) :
    rampChar ramp true g = rampChar ramp.reverse false g := by
  have hn : 1 ≤ ramp.length := List.length_pos.mpr hramp
  have hrn : ramp.reverse.length = ramp.length := List.length_reverse ramp
  have h1 := rampIndex_spec ramp.length g true hn hg
  have h2 := rampIndex_spec ramp.reverse.length g false (by omega) (hg)
  have hle := charIndex_toNat_le ramp.length g hn hg
  rw [rampChar_getD, rampChar_getD, List.getD_eq_getElem _ _ h1.2.2,
    List.getD_eq_getElem _ _ h2.2.2, List.getElem_reverse]
  congr 1
  rw [h1.2.1, h2.2.1]
  simp only [if_true, Bool.false_eq_true, if_false, hrn]

/-! ### Row slicing -/

theorem sliceRows_length {α : Type} (w h : Nat) (xs : List α) (hw : 0 < w)
    (hlen : xs.length = w * h) : (sliceRows w xs).length = h := by
  unfold sliceRows
  rw [List.length_map, List.length_range, hlen]
  have h1 : w * h + w - 1 = (w - 1) + h * w := by
    rw [Nat.mul_comm w h]
    omega
  rw [h1, Nat.add_mul_div_right _ _ hw, Nat.div_eq_of_lt (by omega), Nat.zero_add]

theorem sliceRows_row_length {α : Type} (w h : Nat) (xs : List α) (r : List α)
    (hw : 0 < w) (hlen : xs.length = w * h) (hr : r ∈ sliceRows w xs) :
    r.length = w := by
  unfold sliceRows at hr
  obtain ⟨k, hk, hkr⟩ := List.mem_map.mp hr
  rw [List.mem_range] at hk
  have hkh : k < h := by
    have := sliceRows_length w h xs hw hlen
    unfold sliceRows at this
    rw [List.length_map, List.length_range] at this
    omega
  subst hkr
  rw [List.length_take, List.length_drop, hlen]
  have hmul : w * (k + 1) ≤ w * h := Nat.mul_le_mul_left w hkh
  have : w * (k + 1) = k * w + w := by ring
  omega

theorem sliceRows_mem {α : Type} (w : Nat) (xs : List α) (r : List α) (p : α)
    (hr : r ∈ sliceRows w xs) (hp : p ∈ r) : p ∈ xs := by
  unfold sliceRows at hr
  obtain ⟨k, _, hkr⟩ := List.mem_map.mp hr
  subst hkr
  exact (List.drop_sublist _ _).mem ((List.take_sublist _ _).mem hp)

/-! ### asciiRows -/

theorem asciiRows_length (w h : Nat) (pixels : List Nat) (ramp : List Char)
    (invert : Bool) (hw : 0 < w) (hlen : pixels.length = w * h) :
    (asciiRows w pixels ramp invert).length = h := by
  unfold asciiRows
  rw [List.length_map]
  exact sliceRows_length w h pixels hw hlen

theorem asciiRows_row_length (w h : Nat) (pixels : List Nat) (ramp : List Char)
    (invert : Bool) (r : List Char) (hw : 0 < w) (hlen : pixels.length = w * h)
    (hr : r ∈ asciiRows w pixels ramp invert) : r.length = w := by
  unfold asciiRows at hr
  obtain ⟨row, hrow, hrr⟩ := List.mem_map.mp hr
  subst hrr
  rw [List.length_map]
  exact sliceRows_row_length w h pixels row hw hlen hrow

theorem asciiRows_mem_ramp (w : Nat) (pixels : List Nat) (ramp : List Char)
    (invert : Bool) (r : List Char) (c : Char)
    (hvals : ∀ p ∈ pixels, p ≤ 255) (hramp : ramp ≠ [])
    (hr : r ∈ asciiRows w pixels ramp invert) (hc : c ∈ r) : c ∈ ramp := by
  unfold asciiRows at hr
  obtain ⟨row, hrow, hrr⟩ := List.mem_map.mp hr
  subst hrr
  obtain ⟨p, hp, hpc⟩ := List.mem_map.mp hc
  subst hpc
  exact rampChar_mem ramp invert p hramp (hvals p (sliceRows_mem w pixels row p hrow hp))

theorem asciiRows_invert (w : Nat) (pixels : List Nat) (ramp : List Char)
    (hvals : ∀ p ∈ pixels, p ≤ 255) (hramp : ramp ≠ []) :
    asciiRows w pixels ramp true = asciiRows w pixels ramp.reverse false := by
  unfold asciiRows
  refine List.map_congr_left (fun row hrow => ?_)
  refine List.map_congr_left (fun p hp => ?_)
  exact rampChar_invert ramp p hramp (hvals p (sliceRows_mem w pixels row p hrow hp))

/-! ### Validity of the pipeline stages -/

theorem getD_le_255 (xs : List Nat) (i : Nat) (hvals : ∀ p ∈ xs, p ≤ 255) :
    xs.getD i 0 ≤ 255 := by
  by_cases h : i < xs.length
  · rw [List.getD_eq_getElem _ _ h]
    exact hvals _ (List.getElem_mem h)
  · rw [List.getD_eq_default _ _ (by omega)]
    omega

theorem cropImg_valid (img : Img) (b : CropBox) (himg : Img.Valid img) :
    Img.Valid (cropImg img b) := by
  constructor
  · show (List.map _ _).length = _
    rw [List.length_map, List.length_range]
    rfl
  · intro p hp
    obtain ⟨k, _, hkp⟩ := List.mem_map.mp hp
    subst hkp
    exact getD_le_255 _ _ himg.2

theorem brightPixel_le (b : ℚ) (p : Nat) : brightPixel b p ≤ 255 := by
  unfold brightPixel
  have h1 : max 0 (min ((p : ℚ) + b) 255) ≤ 255 :=
    max_le (by norm_num) (min_le_right _ _)
  have h2 : ⌊max 0 (min ((p : ℚ) + b) 255)⌋ ≤ 255 := by
    have := Int.floor_le_floor h1
    simpa using this
  omega

theorem applyBrightness_width (b : ℚ) (img : Img) :
    (applyBrightness b img).width = img.width := by
  unfold applyBrightness
  split <;> rfl

theorem applyBrightness_height (b : ℚ) (img : Img) :
    (applyBrightness b img).height = img.height := by
  unfold applyBrightness
  split <;> rfl

theorem applyBrightness_valid (b : ℚ) (img : Img) (himg : Img.Valid img) :
    Img.Valid (applyBrightness b img) := by
  unfold applyBrightness
  split
  · exact himg
  · constructor
    · show (List.map _ _).length = _
      rw [List.length_map]
      exact himg.1
    · intro p hp
      obtain ⟨q, _, hqp⟩ := List.mem_map.mp hp
      subst hqp
      exact brightPixel_le b q

theorem stageCrop_valid (img : Img) (ce : Bool) (p1 p2 p3 p4 : ℚ)
    (himg : Img.Valid img) : Img.Valid (stageCrop img ce p1 p2 p3 p4) := by
  unfold stageCrop
  split
  · exact cropImg_valid _ _ himg
  · exact himg

theorem preImage_valid (img : Img) (b : ℚ) (ce : Bool) (p1 p2 p3 p4 : ℚ)
    (himg : Img.Valid img) : Img.Valid (preImage img b ce p1 p2 p3 p4) :=
  applyBrightness_valid _ _ (stageCrop_valid img ce p1 p2 p3 p4 himg)

/-! ### Target dimensions -/

theorem newDim_pos (dim : Nat) (scale : ℚ) : 1 ≤ newDim dim scale := by
  unfold newDim
  have h1 : (1 : Int) ≤ max 1 (pyInt ((dim : ℚ) * scale / 100)) := le_max_left _ _
  omega

theorem newDim_eq_floor (dim : Nat) (scale : ℚ) :
    newDim dim scale = (max 1 ⌊(dim : ℚ) * scale / 100⌋).toNat := by
  unfold newDim pyInt
  split
  · rename_i hneg
    have hceil : ⌈(dim : ℚ) * scale / 100⌉ ≤ 0 := by
      rw [Int.ceil_le]
      push_cast
      exact le_of_lt hneg
    have hfloor : ⌊(dim : ℚ) * scale / 100⌋ ≤ 0 := le_trans (Int.floor_le_ceil _) hceil
    omega
  · rfl

/-! ### The concrete resampler -/

theorem nearestResample_valid : ValidResample nearestResample := by
  intro img w h hv
  unfold nearestResample
  split
  · rename_i hc
    exact ⟨hc.1.symm, hc.2.symm, by rw [hv.1, hc.1, hc.2], hv.2⟩
  · refine ⟨rfl, rfl, ?_, ?_⟩
    · show (List.map _ _).length = _
      rw [List.length_map, List.length_range]
    · intro p hp
      obtain ⟨k, _, hkp⟩ := List.mem_map.mp hp
      subst hkp
      exact getD_le_255 _ _ hv.2

theorem nearestResample_id : ResampleId nearestResample := by
  intro img w h _ hw hh
  unfold nearestResample
  rw [if_pos ⟨hw, hh⟩]

/-! ### Joining and splitting rows -/

theorem mem_joinRows (rows : List (List Char)) (c : Char) (hc : c ∈ joinRows rows) :
    c = '\n' ∨ ∃ r ∈ rows, c ∈ r := by
  induction rows with
  | nil => simp [joinRows] at hc
  | cons r rs ih =>
    cases rs with
    | nil =>
      right
      exact ⟨r, List.mem_cons_self r [], hc⟩
    | cons r2 rs2 =>
      rw [show joinRows (r :: r2 :: rs2) = r ++ '\n' :: joinRows (r2 :: rs2) from rfl] at hc
      rcases List.mem_append.mp hc with h | h
      · exact Or.inr ⟨r, List.mem_cons_self _ _, h⟩
      · rcases List.mem_cons.mp h with h | h
        · exact Or.inl h
        · rcases ih h with h | ⟨r3, hr3, hcr3⟩
          · exact Or.inl h
          · exact Or.inr ⟨r3, List.mem_cons_of_mem _ hr3, hcr3⟩

theorem joinRows_ne_nil (rows : List (List Char)) (hrows : rows ≠ [])
    (hne : ∀ r ∈ rows, r ≠ []) : joinRows rows ≠ [] := by
  cases rows with
  | nil => exact absurd rfl hrows
  | cons r rs =>
    cases rs with
    | nil => exact hne r (List.mem_cons_self _ _)
    | cons r2 rs2 =>
      rw [show joinRows (r :: r2 :: rs2) = r ++ '\n' :: joinRows (r2 :: rs2) from rfl]
      intro hcontra
      rcases List.append_eq_nil.mp hcontra with ⟨_, h2⟩
      exact List.cons_ne_nil _ _ h2

theorem splitLinesChars_no_newline (r : List Char) (h : '\n' ∉ r) :
    splitLinesChars r = [r] := by
  induction r with
  | nil => rfl
  | cons c cs ih =>
    have hc : c ≠ '\n' := fun hcontra => h (hcontra ▸ List.mem_cons_self _ _)
    have hcs : '\n' ∉ cs := fun hmem => h (List.mem_cons_of_mem _ hmem)
    rw [show splitLinesChars (c :: cs) =
        (if c = '\n' then [] :: splitLinesChars cs
         else match splitLinesChars cs with
              | [] => [[c]]
              | r :: rs => (c :: r) :: rs) from rfl,
      if_neg hc, ih hcs]

theorem splitLinesChars_append (r t : List Char) (h : '\n' ∉ r) :
    splitLinesChars (r ++ '\n' :: t) = r :: splitLinesChars t := by
  induction r with
  | nil =>
    rw [List.nil_append]
    rw [show splitLinesChars ('\n' :: t) =
        (if '\n' = '\n' then [] :: splitLinesChars t
         else match splitLinesChars t with
              | [] => [['\n']]
              | r :: rs => ('\n' :: r) :: rs) from rfl,
      if_pos rfl]
  | cons c cs ih =>
    have hc : c ≠ '\n' := fun hcontra => h (hcontra ▸ List.mem_cons_self _ _)
    have hcs : '\n' ∉ cs := fun hmem => h (List.mem_cons_of_mem _ hmem)
    rw [List.cons_append]
    rw [show splitLinesChars (c :: (cs ++ '\n' :: t)) =
        (if c = '\n' then [] :: splitLinesChars (cs ++ '\n' :: t)
         else match splitLinesChars (cs ++ '\n' :: t) with
              | [] => [[c]]
              | r :: rs => (c :: r) :: rs) from rfl,
      if_neg hc, ih hcs]

theorem splitLinesChars_joinRows (rows : List (List Char)) (hrows : rows ≠ [])
    (hnl : ∀ r ∈ rows, '\n' ∉ r) : splitLinesChars (joinRows rows) = rows := by
  induction rows with
  | nil => exact absurd rfl hrows
  | cons r rs ih =>
    cases rs with
    | nil =>
      rw [show joinRows [r] = r from rfl]
      exact splitLinesChars_no_newline r (hnl r (List.mem_cons_self _ _))
    | cons r2 rs2 =>
      rw [show joinRows (r :: r2 :: rs2) = r ++ '\n' :: joinRows (r2 :: rs2) from rfl,
        splitLinesChars_append r _ (hnl r (List.mem_cons_self _ _)),
        ih (List.cons_ne_nil _ _) (fun q hq => hnl q (List.mem_cons_of_mem _ hq))]

/-! ### Further helper lemmas -/

theorem charIndex_floor (n g : Nat) (hn : 1 ≤ n) :
    charIndex n g = ⌊(g : ℚ) * ((n : ℚ) - 1) / 255⌋ := by
  unfold charIndex
  apply pyInt_of_nonneg
  have h1 : (0 : ℚ) ≤ (n : ℚ) - 1 := by
    have : (1 : ℚ) ≤ (n : ℚ) := by exact_mod_cast hn
    linarith
  have h2 : (0 : ℚ) ≤ (g : ℚ) := by positivity
  positivity

theorem brightPixel_zero (p : Nat) (hp : p ≤ 255) : brightPixel 0 p = p := by
  unfold brightPixel
  have h1 : ((p : ℚ) + 0) = (p : ℚ) := by ring
  rw [h1]
  have h2 : min ((p : ℚ)) 255 = (p : ℚ) := min_eq_left (by exact_mod_cast hp)
  rw [h2]
  have h3 : max 0 ((p : ℚ)) = (p : ℚ) := max_eq_right (by positivity)
  rw [h3, Int.floor_natCast]
  exact Int.toNat_natCast p

theorem resolveCharSet_ne_nil (name : String) : (resolveCharSet name).data ≠ [] := by
  unfold resolveCharSet charSets
  repeat' split
  all_goals decide

theorem gray10_valid : Img.Valid gray10 := by
  constructor <;> decide

theorem blank3_valid : Img.Valid blank3 := by
  constructor <;> decide

theorem convertRows_eq (R : Img → Nat → Nat → Img) (img : Img) (ws hs : ℚ)
    (ramp : List Char) (invert : Bool) (b : ℚ) (ce : Bool) (p1 p2 p3 p4 : ℚ) :
    convertRows R img ws hs ramp invert b ce p1 p2 p3 p4 =
      asciiRows (newDim (preImage img b ce p1 p2 p3 p4).width ws)
        (R (preImage img b ce p1 p2 p3 p4)
          (newDim (preImage img b ce p1 p2 p3 p4).width ws)
          (newDim (preImage img b ce p1 p2 p3 p4).height hs)).data ramp invert := rfl

theorem preImage_width (img : Img) (b : ℚ) (ce : Bool) (p1 p2 p3 p4 : ℚ) :
    (preImage img b ce p1 p2 p3 p4).width = (stageCrop img ce p1 p2 p3 p4).width :=
  applyBrightness_width _ _

theorem preImage_height (img : Img) (b : ℚ) (ce : Bool) (p1 p2 p3 p4 : ℚ) :
    (preImage img b ce p1 p2 p3 p4).height = (stageCrop img ce p1 p2 p3 p4).height :=
  applyBrightness_height _ _

theorem string_mk_ne_empty (l : List Char) (h : l ≠ []) : String.mk l ≠ "" := by
  intro hcontra
  exact h (congrArg String.data hcontra)

/-! ### Claim theorems -/

/-- C3: for every valid image, resolved glyph ramp, and combination of
parameters, every non-newline character of `image_to_ascii`'s output is a
member of the selected ramp, and for every ramp length `N ≥ 2` the computed
character index (after optional inversion) lies in `[0, N-1]`, so the ramp
indexing never goes out of bounds. -/
theorem C3_closure :
    (∀ (R : Img → Nat → Nat → Img) (img : Img) (ws hs : ℚ) (name : String)
      (invert : Bool) (b : ℚ) (ce : Bool) (p1 p2 p3 p4 : ℚ),
      ValidResample R → Img.Valid img →
      ∀ c ∈ (image_to_ascii R img ws hs name invert b ce p1 p2 p3 p4).data,
        c = '\n' ∨ c ∈ (resolveCharSet name).data) ∧
    (∀ (n g : Nat) (invert : Bool), 2 ≤ n → g ≤ 255 →
      0 ≤ rampIndex n invert g ∧ (rampIndex n invert g).toNat < n) := by
  constructor
  · intro R img ws hs name invert b ce p1 p2 p3 p4 hR himg c hc
    have hmem := mem_joinRows _ c hc
    rcases hmem with h | ⟨r, hr, hcr⟩
    · exact Or.inl h
    · right
      rw [image_to_ascii_rows, convertRows_eq] at hr
      have hvals := (hR (preImage img b ce p1 p2 p3 p4)
        (newDim (preImage img b ce p1 p2 p3 p4).width ws)
        (newDim (preImage img b ce p1 p2 p3 p4).height hs)
        (preImage_valid img b ce p1 p2 p3 p4 himg)).2.2.2
      exact asciiRows_mem_ramp _ _ _ invert r c hvals (resolveCharSet_ne_nil name) hr hcr
  · intro n g invert h2 hg
    exact ⟨(rampIndex_spec n g invert (by omega) hg).1,
      (rampIndex_spec n g invert (by omega) hg).2.2⟩

/-- C3 witness: instantiation at a concrete run ('=' in the gray-128 output
over the standard ramp) and at the concrete index computation. -/
theorem C3_witness :
    ('=' = '\n' ∨ '=' ∈ (resolveCharSet "standard").data) ∧
      (0 ≤ rampIndex 10 true 128 ∧ (rampIndex 10 true 128).toNat < 10) :=
  ⟨C3_closure.1 nearestResample gray10 100 100 "standard" false 0 false 0 0 100 100
      nearestResample_valid gray10_valid '=' (by with_unfolding_all decide),
   C3_closure.2 10 128 true (by decide) (by decide)⟩

/-- C4: for every valid image and identical geometric/tonal parameters, the
conversion with `invert = true` equals the conversion with `invert = false`
over the reversed ramp, i.e. each character at ramp index `i` is replaced
index-for-index by the character at index `(N-1)-i`. -/
theorem C4_invert_reversal (R : Img → Nat → Nat → Img) (img : Img) (ws hs : ℚ)
    (ramp : List Char) (b : ℚ) (ce : Bool) (p1 p2 p3 p4 : ℚ)
    (hR : ValidResample R) (himg : Img.Valid img) (hramp : ramp ≠ []) :
    convertRows R img ws hs ramp true b ce p1 p2 p3 p4 =
      convertRows R img ws hs ramp.reverse false b ce p1 p2 p3 p4 := by
  rw [convertRows_eq, convertRows_eq]
  have hvals := (hR (preImage img b ce p1 p2 p3 p4)
    (newDim (preImage img b ce p1 p2 p3 p4).width ws)
    (newDim (preImage img b ce p1 p2 p3 p4).height hs)
    (preImage_valid img b ce p1 p2 p3 p4 himg)).2.2.2
  exact asciiRows_invert _ _ ramp hvals hramp

/-- C4 witness: the reversal law at a concrete run. -/
theorem C4_witness :
    convertRows nearestResample gray10 100 100 " .:-=+*#%@".data true 0 false 0 0 100 100 =
      convertRows nearestResample gray10 100 100 (" .:-=+*#%@".data).reverse false 0 false 0 0 100 100 :=
  C4_invert_reversal nearestResample gray10 100 100 " .:-=+*#%@".data 0 false 0 0 100 100
    nearestResample_valid gray10_valid (by decide)

/-- C1 counterexample: on a 3×3 source with width_scale 50 the claimed
row length `round(3 * 50/100) = round(1.5) = 2` is wrong — the code
truncates, producing rows of length `int(1.5) = 1`. -/
theorem C1_counterexample :
    ¬ ∀ r ∈ image_to_ascii_rows nearestResample blank3 50 100 "standard" false 0 false 0 0 100 100,
        r.length = (round (((stageCrop blank3 false 0 0 100 100).width : ℚ) * 50 / 100)).toNat := by
  with_unfolding_all decide

/-- C1 (amended): for every source image (after optional crop) of dimensions
W × H and every width_scale, height_scale, the output of `image_to_ascii`
has exactly `int(H * height_scale/100)` rows (truncation, not rounding) and
every row has length `int(W * width_scale/100)`, with each target dimension
clamped to a minimum of 1, so a zero-dimension (empty) output is never
produced. -/
theorem C1_dimensions (R : Img → Nat → Nat → Img) (img : Img) (ws hs : ℚ)
    (name : String) (invert : Bool) (b : ℚ) (ce : Bool) (p1 p2 p3 p4 : ℚ)
    (hR : ValidResample R) (himg : Img.Valid img) :
    (image_to_ascii_rows R img ws hs name invert b ce p1 p2 p3 p4).length =
        (max 1 ⌊((stageCrop img ce p1 p2 p3 p4).height : ℚ) * hs / 100⌋).toNat ∧
      (∀ r ∈ image_to_ascii_rows R img ws hs name invert b ce p1 p2 p3 p4,
        r.length = (max 1 ⌊((stageCrop img ce p1 p2 p3 p4).width : ℚ) * ws / 100⌋).toNat) ∧
      image_to_ascii R img ws hs name invert b ce p1 p2 p3 p4 ≠ "" := by
  have hpre := preImage_valid img b ce p1 p2 p3 p4 himg
  obtain ⟨hw3, hh3, hlen3, hvals3⟩ := hR (preImage img b ce p1 p2 p3 p4)
    (newDim (preImage img b ce p1 p2 p3 p4).width ws)
    (newDim (preImage img b ce p1 p2 p3 p4).height hs) hpre
  have hwpos := newDim_pos (preImage img b ce p1 p2 p3 p4).width ws
  have hhpos := newDim_pos (preImage img b ce p1 p2 p3 p4).height hs
  have hrows : image_to_ascii_rows R img ws hs name invert b ce p1 p2 p3 p4 =
      asciiRows (newDim (preImage img b ce p1 p2 p3 p4).width ws)
        (R (preImage img b ce p1 p2 p3 p4)
          (newDim (preImage img b ce p1 p2 p3 p4).width ws)
          (newDim (preImage img b ce p1 p2 p3 p4).height hs)).data
        (resolveCharSet name).data invert := by
    rw [image_to_ascii_rows, convertRows_eq]
  have hlength : (image_to_ascii_rows R img ws hs name invert b ce p1 p2 p3 p4).length =
      newDim (preImage img b ce p1 p2 p3 p4).height hs := by
    rw [hrows]
    exact asciiRows_length _ _ _ _ _ (by omega) hlen3
  have hrowlen : ∀ r ∈ image_to_ascii_rows R img ws hs name invert b ce p1 p2 p3 p4,
      r.length = newDim (preImage img b ce p1 p2 p3 p4).width ws := by
    intro r hr
    rw [hrows] at hr
    exact asciiRows_row_length _ _ _ _ _ r (by omega) hlen3 hr
  refine ⟨?_, ?_, ?_⟩
  · rw [hlength, ← preImage_height img b ce p1 p2 p3 p4, newDim_eq_floor]
  · intro r hr
    rw [hrowlen r hr, ← preImage_width img b ce p1 p2 p3 p4, newDim_eq_floor]
  · apply string_mk_ne_empty
    apply joinRows_ne_nil
    · intro hcontra
      have := congrArg List.length hcontra
      rw [hlength] at this
      simp at this
      omega
    · intro r hr
      intro hcontra
      have := congrArg List.length hcontra
      rw [hrowlen r hr] at this
      simp at this
      omega

/-- C1 witness: the amended dimension law at a concrete run. -/
theorem C1_witness :
    (image_to_ascii_rows nearestResample blank3 50 100 "standard" false 0 false 0 0 100 100).length =
        (max 1 ⌊((stageCrop blank3 false 0 0 100 100).height : ℚ) * 100 / 100⌋).toNat ∧
      (∀ r ∈ image_to_ascii_rows nearestResample blank3 50 100 "standard" false 0 false 0 0 100 100,
        r.length = (max 1 ⌊((stageCrop blank3 false 0 0 100 100).width : ℚ) * 50 / 100⌋).toNat) ∧
      image_to_ascii nearestResample blank3 50 100 "standard" false 0 false 0 0 100 100 ≠ "" :=
  C1_dimensions nearestResample blank3 50 100 "standard" false 0 false 0 0 100 100
    nearestResample_valid blank3_valid

/-- C2: every sampled pixel with post-brightness luminance g in [0,255] and
glyph ramp of length N ≥ 2 maps to the ramp character at index
`floor(g * (N-1) / 255)` (floor, not round-to-nearest), with the index
replaced by `(N-1) - index` under inversion; and a 10×10 solid gray-128
image with the 10-character standard ramp, no invert, no brightness and
100/100 scale yields exactly 10 rows of `"=========="`. -/
theorem C2_quantization :
    (∀ (ramp : List Char) (g : Nat) (invert : Bool), 2 ≤ ramp.length → g ≤ 255 →
      rampChar ramp invert g =
        ramp.getD
          (if invert then ramp.length - 1 - (⌊(g : ℚ) * ((ramp.length : ℚ) - 1) / 255⌋).toNat
           else (⌊(g : ℚ) * ((ramp.length : ℚ) - 1) / 255⌋).toNat) ' ') ∧
    (∀ R, ValidResample R → ResampleId R →
      image_to_ascii_rows R gray10 100 100 "standard" false 0 false 0 0 100 100 =
        List.replicate 10 (List.replicate 10 '=')) := by
  constructor
  · intro ramp g invert h2 hg
    have hn : 1 ≤ ramp.length := by omega
    rw [rampChar_getD]
    rw [(rampIndex_spec ramp.length g invert hn hg).2.1, ← charIndex_floor ramp.length g hn]
  · intro R hR hid
    have hpre : preImage gray10 0 false 0 0 100 100 = gray10 := by
      unfold preImage stageCrop applyBrightness
      simp
    have hnw : newDim gray10.width 100 = 10 := by with_unfolding_all decide
    have hnh : newDim gray10.height 100 = 10 := by with_unfolding_all decide
    rw [image_to_ascii_rows, convertRows_eq, hpre, hnw, hnh,
      hid gray10 10 10 gray10_valid rfl rfl]
    with_unfolding_all decide

/-- C2 witness: the quantization law evaluated at g = 128 over the standard
ramp, and the solid-gray scenario run with the concrete resampler. -/
theorem C2_witness :
    rampChar " .:-=+*#%@".data false 128 = '=' ∧
      image_to_ascii_rows nearestResample gray10 100 100 "standard" false 0 false 0 0 100 100 =
        List.replicate 10 (List.replicate 10 '=') :=
  ⟨(C2_quantization.1 " .:-=+*#%@".data 128 false (by decide) (by decide)).trans
      (by with_unfolding_all decide),
   C2_quantization.2 nearestResample nearestResample_valid nearestResample_id⟩

/-- C5: when cropping is enabled the four percentage bounds are converted to
pixel coordinates by `floor(dimension * percent / 100)`, the start bound is
clamped to `[0, dim-1]` and the end bound to `[start+1, dim]`; the crop is
applied strictly before resize (percentages are relative to the original
decoded image); and crop bounds (10,10,90,90) on a 100×100 source produce
exactly the 80×80 sub-image starting at pixel (10,10). -/
theorem C5_crop :
    (∀ (w h : Nat) (q1 q2 q3 q4 : ℚ), 0 ≤ q1 → 0 ≤ q2 → 0 ≤ q3 → 0 ≤ q4 →
      cropBox w h q1 q2 q3 q4 =
        ⟨max 0 (min ⌊(w : ℚ) * q1 / 100⌋ ((w : Int) - 1)),
         max 0 (min ⌊(h : ℚ) * q2 / 100⌋ ((h : Int) - 1)),
         max (max 0 (min ⌊(w : ℚ) * q1 / 100⌋ ((w : Int) - 1)) + 1)
           (min ⌊(w : ℚ) * q3 / 100⌋ (w : Int)),
         max (max 0 (min ⌊(h : ℚ) * q2 / 100⌋ ((h : Int) - 1)) + 1)
           (min ⌊(h : ℚ) * q4 / 100⌋ (h : Int))⟩) ∧
    (∀ (R : Img → Nat → Nat → Img) (img : Img) (ws hs : ℚ) (ramp : List Char)
      (invert : Bool) (b : ℚ) (p1 p2 p3 p4 : ℚ),
      convertRows R img ws hs ramp invert b true p1 p2 p3 p4 =
        convertRows R (cropImg img (cropBox img.width img.height p1 p2 p3 p4))
          ws hs ramp invert b false 0 0 0 0) ∧
    cropBox 100 100 10 10 90 90 = ⟨10, 10, 90, 90⟩ ∧
    (∀ img : Img, img.width = 100 → img.height = 100 →
      (cropImg img (cropBox 100 100 10 10 90 90)).width = 80 ∧
      (cropImg img (cropBox 100 100 10 10 90 90)).height = 80 ∧
      ∀ i j, i < 80 → j < 80 →
        (cropImg img (cropBox 100 100 10 10 90 90)).data.getD (j * 80 + i) 0 =
          img.data.getD ((10 + j) * 100 + (10 + i)) 0) := by
  have hbox : cropBox 100 100 10 10 90 90 = ⟨10, 10, 90, 90⟩ := by
    with_unfolding_all decide
  refine ⟨?_, ?_, hbox, ?_⟩
  · intro w h q1 q2 q3 q4 h1 h2 h3 h4
    simp only [cropBox]
    rw [pyInt_of_nonneg _ (div_nonneg (mul_nonneg (by positivity) h1) (by norm_num)),
      pyInt_of_nonneg _ (div_nonneg (mul_nonneg (by positivity) h2) (by norm_num)),
      pyInt_of_nonneg _ (div_nonneg (mul_nonneg (by positivity) h3) (by norm_num)),
      pyInt_of_nonneg _ (div_nonneg (mul_nonneg (by positivity) h4) (by norm_num))]
  · intro R img ws hs ramp invert b p1 p2 p3 p4
    rfl
  · intro img hw hh
    rw [hbox]
    have h80 : ((90 : Int) - (10 : Int)).toNat = 80 := by decide
    have h10 : ((10 : Int)).toNat = 10 := by decide
    refine ⟨?_, ?_, ?_⟩
    · simp only [cropImg]
      omega
    · simp only [cropImg]
      omega
    · intro i j hi hj
      simp only [cropImg, h80, h10]
      rw [List.getD_eq_getElem _ _ (by rw [List.length_map, List.length_range]; omega)]
      rw [List.getElem_map, List.getElem_range, hw]
      congr 1
      omega

/-- C5 witness: the crop-bound formula and the 80×80 sub-image law at the
concrete 100×100 all-black image. -/
theorem C5_witness :
    cropBox 100 100 10 10 90 90 =
        ⟨max 0 (min ⌊(100 : ℚ) * 10 / 100⌋ ((100 : Int) - 1)),
         max 0 (min ⌊(100 : ℚ) * 10 / 100⌋ ((100 : Int) - 1)),
         max (max 0 (min ⌊(100 : ℚ) * 10 / 100⌋ ((100 : Int) - 1)) + 1)
           (min ⌊(100 : ℚ) * 90 / 100⌋ (100 : Int)),
         max (max 0 (min ⌊(100 : ℚ) * 10 / 100⌋ ((100 : Int) - 1)) + 1)
           (min ⌊(100 : ℚ) * 90 / 100⌋ (100 : Int))⟩ ∧
      (cropImg ⟨100, 100, List.replicate 10000 0⟩ (cropBox 100 100 10 10 90 90)).width = 80 :=
  ⟨by
    have h := C5_crop.1 100 100 10 10 90 90 (by norm_num) (by norm_num) (by norm_num) (by norm_num)
    simpa using h,
   ((C5_crop.2.2.2 ⟨100, 100, List.replicate 10000 0⟩ rfl rfl).1)⟩

/-- C6: for every brightness offset, `image_to_ascii` adds the offset to
every luminance sample of the (optionally cropped) image and clamps each
result to [0,255], after crop and before resize; brightness 100 on a solid
gray-128 image yields clamped luminance 228, quantization index
`floor(228*9/255) = 8`, character '%'. -/
theorem C6_brightness :
    (∀ (b : ℚ) (img : Img), Img.Valid img →
      (applyBrightness b img).width = img.width ∧
      (applyBrightness b img).height = img.height ∧
      (applyBrightness b img).data =
        img.data.map (fun p : Nat => (⌊max 0 (min ((p : ℚ) + b) 255)⌋).toNat)) ∧
    (∀ (R : Img → Nat → Nat → Img) (img : Img) (ws hs : ℚ) (ramp : List Char)
      (invert : Bool) (b : ℚ) (ce : Bool) (p1 p2 p3 p4 : ℚ),
      convertRows R img ws hs ramp invert b ce p1 p2 p3 p4 =
        convertRows R (applyBrightness b (stageCrop img ce p1 p2 p3 p4))
          ws hs ramp invert 0 false 0 0 0 0) ∧
    (∀ R, ValidResample R → ResampleId R →
      image_to_ascii_rows R gray10 100 100 "standard" false 100 false 0 0 100 100 =
        List.replicate 10 (List.replicate 10 '%')) := by
  refine ⟨?_, ?_, ?_⟩
  · intro b img himg
    refine ⟨applyBrightness_width b img, applyBrightness_height b img, ?_⟩
    unfold applyBrightness
    split
    · rename_i hb0
      subst hb0
      have : ∀ p ∈ img.data, p = (⌊max 0 (min ((p : ℚ) + 0) 255)⌋).toNat := by
        intro p hp
        have := brightPixel_zero p (himg.2 p hp)
        unfold brightPixel at this
        omega
      calc img.data = img.data.map id := (List.map_id img.data).symm
        _ = img.data.map (fun p : Nat => (⌊max 0 (min ((p : ℚ) + 0) 255)⌋).toNat) :=
            List.map_congr_left (fun p hp => this p hp)
    · rfl
  · intro R img ws hs ramp invert b ce p1 p2 p3 p4
    have hpre : preImage (applyBrightness b (stageCrop img ce p1 p2 p3 p4)) 0 false 0 0 0 0 =
        preImage img b ce p1 p2 p3 p4 := by
      unfold preImage stageCrop applyBrightness
      simp
    rw [convertRows_eq, convertRows_eq, hpre]
  · intro R hR hid
    have hpre : preImage gray10 100 false 0 0 100 100 = ⟨10, 10, List.replicate 100 228⟩ := by
      with_unfolding_all decide
    have hval228 : Img.Valid ⟨10, 10, List.replicate 100 228⟩ := by
      constructor <;> decide
    have hnw : newDim (10 : Nat) 100 = 10 := by with_unfolding_all decide
    rw [image_to_ascii_rows, convertRows_eq, hpre]
    rw [show (Img.mk 10 10 (List.replicate 100 228)).width = 10 from rfl,
      show (Img.mk 10 10 (List.replicate 100 228)).height = 10 from rfl, hnw,
      hid ⟨10, 10, List.replicate 100 228⟩ 10 10 hval228 rfl rfl]
    with_unfolding_all decide

/-- C6 witness: the clamping law at brightness 100 on the gray-128 image,
and the '%' scenario with the concrete resampler. -/
theorem C6_witness :
    (applyBrightness 100 gray10).data =
        gray10.data.map (fun p : Nat => (⌊max 0 (min ((p : ℚ) + 100) 255)⌋).toNat) ∧
      image_to_ascii_rows nearestResample gray10 100 100 "standard" false 100 false 0 0 100 100 =
        List.replicate 10 (List.replicate 10 '%') :=
  ⟨(C6_brightness.1 100 gray10 gray10_valid).2.2,
   C6_brightness.2.2 nearestResample nearestResample_valid nearestResample_id⟩

/-- C7: `image_to_ascii` never lets a failure escape as an exception: a
missing source path produces the explicit "no valid image" message, a
decode or resize failure produces the generic failure message carrying the
underlying cause, and on success the result is the converted string. -/
theorem C7_error_handling :
    (∀ (load : Except String Img) (resize : Img → Nat → Nat → Except String Img)
      (ws hs : ℚ) (name : String) (invert : Bool) (b : ℚ) (ce : Bool) (p1 p2 p3 p4 : ℚ),
      image_to_ascii_checked false load resize ws hs name invert b ce p1 p2 p3 p4 =
        "Please select a valid image file.") ∧
    (∀ (e : String) (resize : Img → Nat → Nat → Except String Img)
      (ws hs : ℚ) (name : String) (invert : Bool) (b : ℚ) (ce : Bool) (p1 p2 p3 p4 : ℚ),
      image_to_ascii_checked true (.error e) resize ws hs name invert b ce p1 p2 p3 p4 =
        "Error converting image: " ++ e) ∧
    (∀ (img : Img) (resize : Img → Nat → Nat → Except String Img)
      (ws hs : ℚ) (name : String) (invert : Bool) (b : ℚ) (ce : Bool) (p1 p2 p3 p4 : ℚ)
      (e : String),
      resize (preImage img b ce p1 p2 p3 p4)
          (newDim (preImage img b ce p1 p2 p3 p4).width ws)
          (newDim (preImage img b ce p1 p2 p3 p4).height hs) = .error e →
      image_to_ascii_checked true (.ok img) resize ws hs name invert b ce p1 p2 p3 p4 =
        "Error converting image: " ++ e) ∧
    (∀ (R : Img → Nat → Nat → Img) (img : Img) (ws hs : ℚ) (name : String)
      (invert : Bool) (b : ℚ) (ce : Bool) (p1 p2 p3 p4 : ℚ),
      image_to_ascii_checked true (.ok img) (fun i w h => .ok (R i w h))
          ws hs name invert b ce p1 p2 p3 p4 =
        image_to_ascii R img ws hs name invert b ce p1 p2 p3 p4) := by
  refine ⟨fun _ _ _ _ _ _ _ _ _ _ _ _ => rfl, fun _ _ _ _ _ _ _ _ _ _ _ _ => rfl, ?_, ?_⟩
  · intro img resize ws hs name invert b ce p1 p2 p3 p4 e hres
    simp only [image_to_ascii_checked, if_true]
    rw [hres]
  · intro R img ws hs name invert b ce p1 p2 p3 p4
    rfl

/-- C7 witness: each failure branch and the success branch at concrete
inputs. -/
theorem C7_witness :
    image_to_ascii_checked false (.ok gray10) (fun i w h => .ok (nearestResample i w h))
        100 100 "standard" false 0 false 0 0 100 100 = "Please select a valid image file." ∧
      image_to_ascii_checked true (.error "cannot identify image file")
        (fun i w h => .ok (nearestResample i w h)) 100 100 "standard" false 0 false 0 0 100 100 =
        "Error converting image: " ++ "cannot identify image file" ∧
      image_to_ascii_checked true (.ok gray10) (fun _ _ _ => .error "resize failed")
        100 100 "standard" false 0 false 0 0 100 100 =
        "Error converting image: " ++ "resize failed" ∧
      image_to_ascii_checked true (.ok gray10) (fun i w h => .ok (nearestResample i w h))
        100 100 "standard" false 0 false 0 0 100 100 =
        image_to_ascii nearestResample gray10 100 100 "standard" false 0 false 0 0 100 100 :=
  ⟨C7_error_handling.1 (.ok gray10) (fun i w h => .ok (nearestResample i w h))
      100 100 "standard" false 0 false 0 0 100 100,
   C7_error_handling.2.1 "cannot identify image file" (fun i w h => .ok (nearestResample i w h))
      100 100 "standard" false 0 false 0 0 100 100,
   C7_error_handling.2.2.1 gray10 (fun _ _ _ => .error "resize failed")
      100 100 "standard" false 0 false 0 0 100 100 "resize failed" rfl,
   C7_error_handling.2.2.2 nearestResample gray10 100 100 "standard" false 0 false 0 0 100 100⟩

/-- C8 counterexample: 500 lies in the claimed accepted range (0, 1000],
but the handler rejects it and stores 100 instead of keeping it. -/
theorem C8_counterexample :
    on_width_entry_change (some 500) = some 100 ∧
      on_width_entry_change (some 500) ≠ some 500 := by
  with_unfolding_all decide

/-- C8 (amended): the scale validation accepts exactly the values in
[0.001, 100]; an out-of-range numeric entry is rejected and the scale is
reset to the default 100.0 (not to the caller's prior value, which the
entry binding has already overwritten); a non-numeric entry is not reset at
all — `DoubleVar.get()` raises `TclError`, which the handler's
`except ValueError` never catches, so the exception escapes and no value is
stored. -/
theorem C8_validation (v : ℚ) :
    ((0.001 ≤ v ∧ v ≤ 100) →
      on_width_entry_change (some v) = some v ∧
        on_height_entry_change (some v) = some v) ∧
    (¬(0.001 ≤ v ∧ v ≤ 100) →
      on_width_entry_change (some v) = some 100 ∧
        on_height_entry_change (some v) = some 100) ∧
    on_width_entry_change none = none ∧ on_height_entry_change none = none := by
  have hw : on_width_entry_change (some v) =
      some (if 0.001 ≤ v ∧ v ≤ 100 then v else 100) := rfl
  have hh : on_height_entry_change (some v) =
      some (if 0.001 ≤ v ∧ v ≤ 100 then v else 100) := rfl
  refine ⟨?_, ?_, rfl, rfl⟩
  · intro h
    rw [hw, hh, if_pos h]
    exact ⟨rfl, rfl⟩
  · intro h
    rw [hw, hh, if_neg h]
    exact ⟨rfl, rfl⟩

/-- C8 witness: acceptance at 50, rejection at 500, and the uncaught
non-numeric case. -/
theorem C8_witness :
    (on_width_entry_change (some 50) = some 50 ∧
        on_height_entry_change (some 50) = some 50) ∧
      (on_width_entry_change (some 500) = some 100 ∧
        on_height_entry_change (some 500) = some 100) ∧
      on_width_entry_change none = none ∧ on_height_entry_change none = none :=
  ⟨(C8_validation 50).1 (by with_unfolding_all decide),
   (C8_validation 500).2.1 (by with_unfolding_all decide),
   (C8_validation 500).2.2⟩

/-- C9 counterexample: for the one-row text "abc" and font size 9 the code
computes canvas width `3 * (9 // 2) = 12`, not the claimed
`floor(3 * 9 / 2) = 13`. -/
theorem C9_counterexample :
    (ascii_to_image_size "abc" 9).1 = 12 ∧ (ascii_to_image_size "abc" 9).1 ≠ 3 * 9 / 2 := by
  decide

/-- C9 (amended): for ASCII art text assembled from nonempty newline-free
rows and every export font size, `ascii_to_image` produces a canvas of
width `(max row length) * (font_size // 2)` (the per-character width is
halved and rounded down before multiplying) and height
`(row count) * (font_size + 2)`. -/
theorem C9_canvas (rows : List (List Char)) (fs : Nat) (hrows : rows ≠ [])
    (hnl : ∀ r ∈ rows, '\n' ∉ r) :
    ascii_to_image_size (String.mk (joinRows rows)) fs =
      ((rows.map List.length).foldl max 0 * (fs / 2), rows.length * (fs + 2)) := by
  unfold ascii_to_image_size
  rw [show (String.mk (joinRows rows)).data = joinRows rows from rfl,
    splitLinesChars_joinRows rows hrows hnl]

/-- C9 witness: the canvas geometry at a concrete two-row text with font
size 9. -/
theorem C9_witness :
    ascii_to_image_size (String.mk (joinRows [['a'], ['b', 'c']])) 9 = (8, 22) :=
  (C9_canvas [['a'], ['b', 'c']] 9 (by decide) (by decide)).trans (by decide)

/-- C10: an explicit char_set name that is not one of the named presets does
not fail: the lookup silently falls back to the "standard" ramp
`" .:-=+*#%@"` and the conversion output equals the conversion over the
standard ramp. -/
theorem C10_fallback (name : String)
    (h : name ∉ ["standard", "detailed", "simple", "blocks", "dots", "custom"]) :
    resolveCharSet name = standardRamp ∧
      ∀ (R : Img → Nat → Nat → Img) (img : Img) (ws hs : ℚ) (invert : Bool)
        (b : ℚ) (ce : Bool) (p1 p2 p3 p4 : ℚ),
        image_to_ascii R img ws hs name invert b ce p1 p2 p3 p4 =
          image_to_ascii R img ws hs "standard" invert b ce p1 p2 p3 p4 := by
  simp only [List.mem_cons, List.not_mem_nil, or_false, not_or] at h
  obtain ⟨h1, h2, h3, h4, h5, h6⟩ := h
  have hres : resolveCharSet name = standardRamp := by
    unfold resolveCharSet charSets
    rw [if_neg h1, if_neg h2, if_neg h3, if_neg h4, if_neg h5, if_neg h6]
    rfl
  have hstd : resolveCharSet "standard" = standardRamp := by decide
  refine ⟨hres, ?_⟩
  intro R img ws hs invert b ce p1 p2 p3 p4
  unfold image_to_ascii image_to_ascii_rows
  rw [hres, hstd]

/-- C10 witness: the fallback at the unknown name "foo". -/
theorem C10_witness :
    resolveCharSet "foo" = standardRamp ∧
      image_to_ascii nearestResample gray10 100 100 "foo" false 0 false 0 0 100 100 =
        image_to_ascii nearestResample gray10 100 100 "standard" false 0 false 0 0 100 100 :=
  ⟨(C10_fallback "foo" (by decide)).1,
   (C10_fallback "foo" (by decide)).2 nearestResample gray10 100 100 false 0 false 0 0 100 100⟩
